import Mathlib

/-!
Verification development for the SVG Pin-Extraction and Coordinate-Resolution
Engine of the Fritzing component backend.

The repository's `src/` holds only the backend test suite (`backend_test.py`)
and a debug script (`debug_coords.py`); the engine itself (Descriptor Loader,
SVG Pin Resolver, Component Normalizer) is not present.  Following the spec,
the engine is modelled here faithfully from the spec's words; the test-suite
bookkeeping (`TestResults`, `main`) is embedded directly from
`src/backend_test.py`.  Coordinates are exact rationals (`ℚ`): every value the
model produces is a finite number by construction.
-/

namespace PinEngine

/-- The three alternate drawings of a component (spec §2, §6). -/
inductive View where
  | breadboard
  | schematic
  | icon
deriving Repr, DecidableEq

/-- Modelled from the spec: 2D affine coordinate transform (§4.2 step 1,
"running coordinate transform (composition of every ancestor's
translate/scale/matrix transform, identity at the root)").  SVG matrix
convention: `x' = a*x + c*y + e`, `y' = b*x + d*y + f`. -/
structure Affine where
  a : ℚ
  b : ℚ
  c : ℚ
  d : ℚ
  e : ℚ
  f : ℚ
deriving Repr, DecidableEq

/-- The identity transform (at the root of the traversal). -/
def Affine.ident : Affine := ⟨1, 0, 0, 1, 0, 0⟩

/-- Apply an affine transform to a point. -/
def Affine.apply (m : Affine) (p : ℚ × ℚ) : ℚ × ℚ :=
  (m.a * p.1 + m.c * p.2 + m.e, m.b * p.1 + m.d * p.2 + m.f)

/-- Composition: `(m₁.comp m₂).apply p = m₁.apply (m₂.apply p)` — the inner
(later-encountered) transform applies first. -/
def Affine.comp (m₁ m₂ : Affine) : Affine :=
  ⟨m₁.a * m₂.a + m₁.c * m₂.b,
   m₁.b * m₂.a + m₁.d * m₂.b,
   m₁.a * m₂.c + m₁.c * m₂.d,
   m₁.b * m₂.c + m₁.d * m₂.d,
   m₁.a * m₂.e + m₁.c * m₂.f + m₁.e,
   m₁.b * m₂.e + m₁.d * m₂.f + m₁.f⟩

/-- Modelled from the spec: the transform attribute of an SVG group —
translate / scale / matrix (§4.2 step 1). -/
inductive Transform where
  | translate (tx ty : ℚ)
  | scale (sx sy : ℚ)
  | matrix (a b c d e f : ℚ)
deriving Repr, DecidableEq

/-- Interpret a transform attribute as an affine map. -/
def Transform.toAffine : Transform → Affine
  | .translate tx ty => ⟨1, 0, 0, 1, tx, ty⟩
  | .scale sx sy => ⟨sx, 0, 0, sy, 0, 0⟩
  | .matrix a b c d e f => ⟨a, b, c, d, e, f⟩

/-- Interpret an optional transform attribute (absent = identity). -/
def transformOf : Option Transform → Affine
  | none => Affine.ident
  | some t => t.toAffine

/-- Modelled from the spec: the parsed SVG element tree (§3 "SvgDocument —
hierarchical elements each with a tag kind, an optional identifier attribute,
an optional local coordinate/transform, and ownership of child elements").
Leaf shapes carry their local geometry: a circle its `(cx, cy)`, a path its
bounding box. -/
inductive SvgElem where
  | group (tf : Option Transform) (children : List SvgElem)
  | circle (idAttr : Option String) (cx cy : ℚ)
  | path (idAttr : Option String) (bx1 by1 bx2 by2 : ℚ)
deriving Repr

/-- `isPrefixCh p l` : the character list `p` is a prefix of `l`. -/
def isPrefixCh : List Char → List Char → Bool
  | [], _ => true
  | _ :: _, [] => false
  | p :: ps, c :: cs => p == c && isPrefixCh ps cs

/-- `containsCh pat l` : `pat` occurs as a contiguous sublist of `l`. -/
def containsCh (pat : List Char) : List Char → Bool
  | [] => pat.isEmpty
  | c :: cs => isPrefixCh pat (c :: cs) || containsCh pat cs

/-- `strContains s pat` : `pat` occurs as a substring of `s`. -/
def strContains (s pat : String) : Bool :=
  containsCh pat.data s.data

/-- ASCII lowercasing of one character. -/
def lowerChar (c : Char) : Char :=
  if c.toNat ≥ 65 ∧ c.toNat ≤ 90 then Char.ofNat (c.toNat + 32) else c

/-- ASCII lowercasing of a string. -/
def lowerStr (s : String) : String :=
  ⟨s.data.map lowerChar⟩

/-- Modelled from the spec: candidate rule (a) — an identifier "matching a
pattern conventionally used for connector terminals (e.g. contains a
recognizable connector/pin token)" (§4.2 step 2a). -/
def isPinPattern (s : String) : Bool :=
  strContains (lowerStr s) "connector" || strContains (lowerStr s) "pin"

/-- A pin-marker candidate produced by the traversal: the derived stable
identifier, the absolute anchor point, and whether the identifier is
synthetic (rule (c), ranked below rules (a)/(b)). -/
structure Candidate where
  svgId : String
  x : ℚ
  y : ℚ
  synthetic : Bool
deriving Repr, DecidableEq

/-- Local geometric center of a leaf shape (§4.2 step 3: a circle's
`(cx, cy)`, a path's bounding-box center). -/
def pathCenter (bx1 by1 bx2 by2 : ℚ) : ℚ × ℚ :=
  ((bx1 + bx2) / 2, (by1 + by2) / 2)

/-- Candidate produced by a leaf shape with an explicit identifier, under the
running transform `tf`: kept iff rule (a) (pin-pattern id) or rule (b)
(id referenced directly by a `ConnectorDeclaration`, the references being
`refs`) applies. -/
def leafCand (refs : List String) (tf : Affine) (idAttr : Option String)
    (center : ℚ × ℚ) (n : Nat) : List Candidate :=
  let p := tf.apply center
  match idAttr with
  | some i =>
    if isPinPattern i || refs.contains i then [⟨i, p.1, p.2, false⟩] else []
  | none => [⟨"element" ++ toString n, p.1, p.2, true⟩]

mutual

/-- Modelled from the spec: depth-first traversal locating pin-marker
candidates, maintaining the running composed ancestor transform and a
traversal-order counter for synthetic identifiers (§4.2 steps 1–3). -/
def collectCands (refs : List String) (tf : Affine) (n : Nat) :
    SvgElem → List Candidate × Nat
  | .group gtf children =>
      collectCandsList refs (tf.comp (transformOf gtf)) (n + 1) children
  | .circle idAttr cx cy => (leafCand refs tf idAttr (cx, cy) n, n + 1)
  | .path idAttr bx1 by1 bx2 by2 =>
      (leafCand refs tf idAttr (pathCenter bx1 by1 bx2 by2) n, n + 1)

/-- Traversal of a sibling list, threading the element counter. -/
def collectCandsList (refs : List String) (tf : Affine) (n : Nat) :
    List SvgElem → List Candidate × Nat
  | [] => ([], n)
  | e :: es =>
      let r := collectCands refs tf n e
      let r2 := collectCandsList refs tf r.2 es
      (r.1 ++ r2.1, r2.2)

end

/-- Synthetic (rule (c)) candidates rank below rule (a)/(b) candidates when
several could satisfy one declaration (§4.2 step 2c). -/
def rankCands (cs : List Candidate) : List Candidate :=
  cs.filter (fun c => !c.synthetic) ++ cs.filter (fun c => c.synthetic)

/-- Modelled from the spec: a `ConnectorDeclaration` — "a logical connector
name/id plus, per view, an optional reference (element identifier or
selector) pointing into that view's SVG" (§3). -/
structure ConnectorDeclaration where
  id : String
  breadboardRef : Option String
  schematicRef : Option String
  iconRef : Option String
deriving Repr, DecidableEq

/-- The declaration's reference into a given view's SVG. -/
def ConnectorDeclaration.refFor (d : ConnectorDeclaration) : View → Option String
  | .breadboard => d.breadboardRef
  | .schematic => d.schematicRef
  | .icon => d.iconRef

/-- All identifiers referenced directly by the declarations for a view
(used by candidate rule (b)). -/
def declRefs (decls : List ConnectorDeclaration) (v : View) : List String :=
  decls.filterMap (fun d => d.refFor v)

/-- Remove the first element satisfying `p`, returning it and the rest. -/
def findRemove (p : α → Bool) : List α → Option (α × List α)
  | [] => none
  | a :: as =>
    if p a then some (a, as)
    else (findRemove p as).map (fun r => (r.1, a :: r.2))

/-- Modelled from the spec: matching pass 1 — "exact identifier match first"
(§4.2 step 4).  Walks the declarations in order; a declaration whose
reference for this view names an unclaimed candidate's identifier claims
that candidate.  Returns the per-declaration assignment (in declaration
order) and the still-unclaimed candidates. -/
def exactPass (v : View) : List ConnectorDeclaration → List Candidate →
    List (Option Candidate) × List Candidate
  | [], cands => ([], cands)
  | d :: ds, cands =>
    match d.refFor v with
    | none =>
      let r := exactPass v ds cands
      (none :: r.1, r.2)
    | some ref =>
      match findRemove (fun c => c.svgId == ref) cands with
      | none =>
        let r := exactPass v ds cands
        (none :: r.1, r.2)
      | some (c, cands') =>
        let r := exactPass v ds cands'
        (some c :: r.1, r.2)

/-- Modelled from the spec: name-similarity fallback — "matching a
declaration's logical name against a human-readable label embedded in the
marker" (§4.2 step 4). -/
def nameSimilar (d : ConnectorDeclaration) (c : Candidate) : Bool :=
  strContains (lowerStr c.svgId) (lowerStr d.id)

/-- Detach the first element of a list, when there is one. -/
def takeFirst : List α → Option (α × List α)
  | [] => none
  | a :: as => some (a, as)

/-- Modelled from the spec: matching pass 2 — declarations left unmatched by
the exact pass take a name-similar unclaimed candidate, else the first
unclaimed candidate (first-unclaimed-candidate-wins, §4.2 step 4 and §9);
a declaration with no unclaimed candidate left stays unresolved for this
view. -/
def fillPass : List (ConnectorDeclaration × Option Candidate) →
    List Candidate → List (Option Candidate)
  | [], _ => []
  | (_, some c) :: rest, cands => some c :: fillPass rest cands
  | (d, none) :: rest, cands =>
    match findRemove (nameSimilar d) cands with
    | some (c, cands') => some c :: fillPass rest cands'
    | none =>
      match takeFirst cands with
      | none => none :: fillPass rest cands
      | some (c, cands') => some c :: fillPass rest cands'

/-- Modelled from the spec: the raw asset for one view — absent, unparsable
markup, or a parsed document (root element plus the root `svg` attributes
relevant to re-serving, §6). -/
inductive SvgSource where
  | missing
  | malformed
  | parsed (viewBox width height : Option String) (root : SvgElem)

/-- Error taxonomy of the engine (§7). -/
inductive EngineError where
  | invalidSvgDocument
  | missingView
  | malformedDescriptor
deriving Repr, DecidableEq

/-- Modelled from the spec: per-view resolution (§4.2).  An unparsable
document fails the whole view with `InvalidSvgDocument`; otherwise every
declaration gets, in declaration order, an optional matched candidate. -/
def resolveView (decls : List ConnectorDeclaration) (v : View)
    (src : SvgSource) : Except EngineError (List (Option Candidate)) :=
  match src with
  | .missing => .error .missingView
  | .malformed => .error .invalidSvgDocument
  | .parsed _ _ _ root =>
    let cands := rankCands (collectCands (declRefs decls v) Affine.ident 0 root).1
    let r := exactPass v decls cands
    .ok (fillPass (decls.zip r.1) r.2)

/-- The SVG assets of one component, by view. -/
structure ComponentViews where
  breadboard : SvgSource
  schematic : SvgSource
  icon : SvgSource

/-- The asset for a given view. -/
def ComponentViews.viewOf (vs : ComponentViews) : View → SvgSource
  | .breadboard => vs.breadboard
  | .schematic => vs.schematic
  | .icon => vs.icon

/-- The fixed view preference order (§4.3): breadboard > schematic > icon. -/
def viewOrder : List View := [.breadboard, .schematic, .icon]

/-- The unit returned to callers (§3, §6).  `x`/`y` are exact rationals when
present; "no data" is the absence of the field (`none`), never `0, 0`. -/
structure ResolvedConnector where
  id : String
  svgId : String
  x : Option ℚ
  y : Option ℚ
deriving Repr, DecidableEq

/-- Per-view resolution results of one component, in view preference order. -/
def viewResults (decls : List ConnectorDeclaration) (vs : ComponentViews) :
    List (Except EngineError (List (Option Candidate))) :=
  viewOrder.map (fun v => resolveView decls v (vs.viewOf v))

/-- The first view (in preference order) in which the declaration at index
`i` resolved; views that failed entirely are skipped (§4.3). -/
def firstHit (i : Nat) :
    List (Except EngineError (List (Option Candidate))) → Option Candidate
  | [] => none
  | .error _ :: rest => firstHit i rest
  | .ok lst :: rest =>
    match lst.getD i none with
    | some c => some c
    | none => firstHit i rest

/-- Merge step for one declaration slot (§4.3): the most-preferred view that
resolved the declaration supplies `svgId` and coordinates; a declaration
resolved in no view is emitted with empty `svgId` and absent coordinates. -/
def mergeAt (results : List (Except EngineError (List (Option Candidate))))
    (i : Nat) (d : ConnectorDeclaration) : ResolvedConnector :=
  match firstHit i results with
  | some c => ⟨d.id, c.svgId, some c.x, some c.y⟩
  | none => ⟨d.id, "", none, none⟩

/-- Modelled from the spec: the Component Normalizer's merge (§4.3) — for
every `ConnectorDeclaration` exactly one `ResolvedConnector`, in declaration
order. -/
def normalizeConnectors (decls : List ConnectorDeclaration)
    (vs : ComponentViews) : List ResolvedConnector :=
  decls.enum.map (fun p => mergeAt (viewResults decls vs) p.1 p.2)

/-- Modelled from the spec: a `ComponentDescriptor` — identity, display
title, category, and the ordered connector declarations (§3). -/
structure ComponentDescriptor where
  id : String
  fritzingId : String
  title : String
  category : String
  connectors : List ConnectorDeclaration
deriving Repr, DecidableEq

/-- `true` iff the list of connector ids has no duplicate. -/
def nodupIds : List String → Bool
  | [] => true
  | x :: xs => !xs.contains x && nodupIds xs

/-- Modelled from the spec: the raw descriptor of a catalog entry — either
structurally invalid bytes or a parsed structure (whose connector ids may
still be duplicated, §4.1). -/
inductive DescriptorSource where
  | malformed
  | wellFormed (d : ComponentDescriptor)

/-- Modelled from the spec: the Descriptor Loader (§4.1) — pure parse,
failing with `MalformedDescriptor` on structurally invalid input or
duplicate connector ids. -/
def loadDescriptor : DescriptorSource → Except EngineError ComponentDescriptor
  | .malformed => .error .malformedDescriptor
  | .wellFormed d =>
    if nodupIds (d.connectors.map (fun c => c.id)) then .ok d
    else .error .malformedDescriptor

/-- One raw catalog entry: descriptor bytes plus one SVG asset per view. -/
structure RawEntry where
  descriptor : DescriptorSource
  views : ComponentViews

/-- The `ComponentRecord` returned by the listing (§6). -/
structure ComponentRecord where
  id : String
  fritzingId : String
  title : String
  category : String
  connectors : List ResolvedConnector
deriving Repr, DecidableEq

/-- Normalize one component (§4.3): descriptor plus per-view resolution. -/
def normalizeComponent (d : ComponentDescriptor) (vs : ComponentViews) :
    ComponentRecord :=
  ⟨d.id, d.fritzingId, d.title, d.category, normalizeConnectors d.connectors vs⟩

/-- Modelled from the spec: the catalog as seen by the listing — either
unreachable (total catalog-load failure) or a list of raw entries (§7). -/
inductive CatalogResult where
  | unreachable
  | entries (l : List RawEntry)

/-- The listing endpoint's response shape (§6). -/
structure ListingResponse where
  success : Bool
  components : List ComponentRecord
  error : Option String
deriving Repr, DecidableEq

/-- Load one catalog entry: `none` when its descriptor is malformed (the
entry is skipped from listings, §7). -/
def loadEntry (e : RawEntry) : Option ComponentRecord :=
  match loadDescriptor e.descriptor with
  | .error _ => none
  | .ok d => some (normalizeComponent d e.views)

/-- Modelled from the spec: `listComponents` (§6, §7) — `success: false` only
on total catalog-load failure; otherwise `success: true` with every validly
loaded component, per-component failures isolated (bad entries skipped). -/
def listComponents : CatalogResult → ListingResponse
  | .unreachable => ⟨false, [], some "catalog unreachable"⟩
  | .entries l => ⟨true, l.filterMap loadEntry, none⟩

/-- A re-served SVG view: the root attributes after normalization, plus the
document tree. -/
structure ServedSvg where
  viewBox : Option String
  width : Option String
  height : Option String
  root : SvgElem

/-- Modelled from the spec: default attributes the Normalizer injects when
the source asset lacks `viewBox` / `width` / `height` (§6). -/
def defaultViewBox : String := "0 0 100 100"

/-- Default width injected when the source lacks one. -/
def defaultWidth : String := "100"

/-- Default height injected when the source lacks one. -/
def defaultHeight : String := "100"

/-- Modelled from the spec: `getComponentSvg(id, view)` (§6) — re-serves the
requested view's document, injecting default `viewBox`/`width`/`height`
rather than propagating an incomplete document; absent or unparsable assets
are not served. -/
def getComponentSvg (catalog : List (String × ComponentViews))
    (id : String) (v : View) : Option ServedSvg :=
  match catalog.lookup id with
  | none => none
  | some vs =>
    match vs.viewOf v with
    | .missing => none
    | .malformed => none
    | .parsed vb w h root =>
      some ⟨some (vb.getD defaultViewBox), some (w.getD defaultWidth),
            some (h.getD defaultHeight), root⟩

end PinEngine

namespace BackendTest

/-- Test-run bookkeeping, embedded from `src/backend_test.py`
(`class TestResults`): counts of passed and failed checks and the error
messages of the failed ones. -/
structure TestResults where
  passed : Nat
  failed : Nat
  errors : List String
deriving Repr, DecidableEq

/-- `TestResults.summary` (backend_test.py lines 41–50): prints the summary
and returns `failed == 0`. -/
def TestResults.summary (r : TestResults) : Bool :=
  r.failed == 0

/-- The merge performed in `main`'s loop (backend_test.py lines 411–414):
`all_results.passed += suite.passed`, `all_results.failed += suite.failed`,
`all_results.errors.extend(suite.errors)`. -/
def mergeResults (acc s : TestResults) : TestResults :=
  ⟨acc.passed + s.passed, acc.failed + s.failed, acc.errors ++ s.errors⟩

/-- `main` (backend_test.py lines 387–424): starts from an empty
`TestResults`, merges the results of the test suites in order, and returns
process exit code 0 when the summary reports success, 1 otherwise. -/
def mainExitCode (suiteResults : List TestResults) : Nat :=
  let allResults := suiteResults.foldl mergeResults ⟨0, 0, []⟩
  if allResults.summary then 0 else 1

end BackendTest

namespace PinEngine

/-! ### Supporting lemmas -/

theorem isPinPattern_empty : isPinPattern "" = false := rfl

theorem elementId_ne_empty (n : Nat) : ("element" ++ toString n) ≠ "" := by
  intro h
  have hl := congrArg String.length h
  rw [String.length_append] at hl
  have h7 : "element".length = 7 := rfl
  have h0 : "".length = 0 := rfl
  rw [h7, h0] at hl
  omega

theorem leafCand_id_ne (refs : List String) (tf : Affine) (idAttr : Option String)
    (ctr : ℚ × ℚ) (n : Nat) (h : refs.contains "" = false) :
    ∀ c ∈ leafCand refs tf idAttr ctr n, c.svgId ≠ "" := by
  intro c hc
  unfold leafCand at hc
  match idAttr with
  | none =>
    simp only [List.mem_singleton] at hc
    subst hc
    exact elementId_ne_empty n
  | some i =>
    simp only at hc
    by_cases hkeep : (isPinPattern i || refs.contains i) = true
    · rw [if_pos hkeep] at hc
      simp only [List.mem_singleton] at hc
      subst hc
      intro hid
      simp only at hid
      subst hid
      rw [isPinPattern_empty, h] at hkeep
      simp at hkeep
    · rw [if_neg hkeep] at hc
      simp at hc

mutual

theorem collectCands_id_ne (refs : List String) (tf : Affine) (n : Nat)
    (e : SvgElem) (h : refs.contains "" = false) :
    ∀ c ∈ (collectCands refs tf n e).1, c.svgId ≠ "" := by
  match e with
  | .group gtf children =>
    intro c hc
    rw [collectCands] at hc
    exact collectCandsList_id_ne refs (tf.comp (transformOf gtf)) (n + 1) children h c hc
  | .circle idAttr cx cy =>
    intro c hc
    rw [collectCands] at hc
    exact leafCand_id_ne refs tf idAttr (cx, cy) n h c hc
  | .path idAttr bx1 by1 bx2 by2 =>
    intro c hc
    rw [collectCands] at hc
    exact leafCand_id_ne refs tf idAttr (pathCenter bx1 by1 bx2 by2) n h c hc

theorem collectCandsList_id_ne (refs : List String) (tf : Affine) (n : Nat)
    (es : List SvgElem) (h : refs.contains "" = false) :
    ∀ c ∈ (collectCandsList refs tf n es).1, c.svgId ≠ "" := by
  match es with
  | [] =>
    intro c hc
    rw [collectCandsList] at hc
    simp at hc
  | e :: rest =>
    intro c hc
    rw [collectCandsList] at hc
    simp only [List.mem_append] at hc
    rcases hc with hc | hc
    · exact collectCands_id_ne refs tf n e h c hc
    · exact collectCandsList_id_ne refs tf (collectCands refs tf n e).2 rest h c hc

end

theorem rankCands_perm (cs : List Candidate) : (rankCands cs).Perm cs := by
  unfold rankCands
  have h := List.filter_append_perm (fun c => !c.synthetic) cs
  refine List.Perm.trans ?_ h
  apply List.Perm.append_left
  apply List.Perm.of_eq
  apply List.filter_congr
  intro c _
  cases c.synthetic <;> rfl

theorem mem_rankCands {c : Candidate} {cs : List Candidate} :
    c ∈ rankCands cs ↔ c ∈ cs :=
  (rankCands_perm cs).mem_iff

theorem rankCands_length (cs : List Candidate) :
    (rankCands cs).length = cs.length :=
  (rankCands_perm cs).length_eq

/-- Number of `some` entries in a list of optional values. -/
def someCount (l : List (Option α)) : Nat :=
  l.countP (fun o => o.isSome)

/-- Number of `none` entries in a list of optional values. -/
def noneCount (l : List (Option α)) : Nat :=
  l.countP (fun o => o.isNone)

theorem someCount_cons_none (l : List (Option α)) :
    someCount (none :: l) = someCount l := by
  simp [someCount, List.countP_cons]

theorem someCount_cons_some (c : α) (l : List (Option α)) :
    someCount (some c :: l) = someCount l + 1 := by
  simp [someCount, List.countP_cons]

theorem someCount_add_noneCount (l : List (Option α)) :
    someCount l + noneCount l = l.length := by
  induction l with
  | nil => rfl
  | cons o t ih =>
    cases o with
    | none => simp [someCount, noneCount, List.countP_cons] at *; omega
    | some c => simp [someCount, noneCount, List.countP_cons] at *; omega

/-- Number of unassigned declarations in a paired assignment list. -/
def pairNoneCount (pairs : List (ConnectorDeclaration × Option Candidate)) : Nat :=
  pairs.countP (fun p => p.2.isNone)

theorem pairNoneCount_zip (decls : List ConnectorDeclaration)
    (assigned : List (Option Candidate)) (h : decls.length = assigned.length) :
    pairNoneCount (decls.zip assigned) = noneCount assigned := by
  induction decls generalizing assigned with
  | nil =>
    cases assigned with
    | nil => rfl
    | cons a t => simp at h
  | cons d ds ih =>
    cases assigned with
    | nil => simp at h
    | cons a t =>
      simp only [List.length_cons, Nat.succ.injEq] at h
      simp [pairNoneCount, noneCount, List.zip_cons_cons, List.countP_cons] at *
      rw [ih t h]

theorem findRemove_spec {p : α → Bool} {l l' : List α} {a : α}
    (h : findRemove p l = some (a, l')) :
    a ∈ l ∧ l'.length + 1 = l.length ∧ ∀ x ∈ l', x ∈ l := by
  induction l generalizing l' with
  | nil => simp [findRemove] at h
  | cons b bs ih =>
    rw [findRemove] at h
    by_cases hb : p b = true
    · rw [if_pos hb] at h
      simp only [Option.some.injEq, Prod.mk.injEq] at h
      obtain ⟨rfl, rfl⟩ := h
      exact ⟨List.mem_cons_self _ _, rfl, fun x hx => List.mem_cons_of_mem _ hx⟩
    · rw [if_neg hb] at h
      cases hfr : findRemove p bs with
      | none => simp [hfr] at h
      | some r =>
        obtain ⟨c, cs⟩ := r
        simp only [hfr, Option.map_some', Option.some.injEq, Prod.mk.injEq] at h
        obtain ⟨rfl, rfl⟩ := h
        obtain ⟨hmem, hlen, hsub⟩ := ih hfr
        refine ⟨List.mem_cons_of_mem _ hmem, by simp [hlen.symm], ?_⟩
        intro x hx
        rcases List.mem_cons.mp hx with rfl | hx
        · exact List.mem_cons_self _ _
        · exact List.mem_cons_of_mem _ (hsub x hx)

theorem takeFirst_eq_none {l : List α} (h : takeFirst l = none) : l = [] := by
  cases l with
  | nil => rfl
  | cons a as => simp [takeFirst] at h

theorem takeFirst_eq_some {l l' : List α} {a : α}
    (h : takeFirst l = some (a, l')) : l = a :: l' := by
  cases l with
  | nil => simp [takeFirst] at h
  | cons b bs =>
    simp only [takeFirst, Option.some.injEq, Prod.mk.injEq] at h
    rw [h.1, h.2]

theorem exactPass_length (v : View) (ds : List ConnectorDeclaration)
    (cands : List Candidate) : (exactPass v ds cands).1.length = ds.length := by
  induction ds generalizing cands with
  | nil => rfl
  | cons d rest ih =>
    rw [exactPass]
    cases hr : d.refFor v with
    | none => simpa using ih cands
    | some ref =>
      cases hfr : findRemove (fun c => c.svgId == ref) cands with
      | none => simp only [hfr]; simpa using ih cands
      | some r =>
        obtain ⟨c, cands2⟩ := r
        simp only [hfr]
        simpa using ih cands2

theorem exactPass_count (v : View) (ds : List ConnectorDeclaration)
    (cands : List Candidate) :
    (exactPass v ds cands).2.length + someCount (exactPass v ds cands).1 =
      cands.length := by
  induction ds generalizing cands with
  | nil => simp [exactPass, someCount]
  | cons d rest ih =>
    rw [exactPass]
    cases hr : d.refFor v with
    | none => simpa [someCount_cons_none] using ih cands
    | some ref =>
      cases hfr : findRemove (fun c => c.svgId == ref) cands with
      | none => simp only [hfr]; simpa [someCount_cons_none] using ih cands
      | some r =>
        obtain ⟨c, cands2⟩ := r
        have hlen := (findRemove_spec hfr).2.1
        have hc := ih cands2
        simp only [hfr, someCount_cons_some]
        omega

theorem exactPass_assigned_mem (v : View) (ds : List ConnectorDeclaration)
    (cands : List Candidate) :
    ∀ oc ∈ (exactPass v ds cands).1, ∀ c, oc = some c → c ∈ cands := by
  induction ds generalizing cands with
  | nil => intro oc h; simp [exactPass] at h
  | cons d rest ih =>
    intro oc hmem c hoc
    rw [exactPass] at hmem
    cases hr : d.refFor v with
    | none =>
      rw [hr] at hmem
      simp only [List.mem_cons] at hmem
      rcases hmem with rfl | hmem
      · exact absurd hoc (by simp)
      · exact ih cands oc hmem c hoc
    | some ref =>
      rw [hr] at hmem
      cases hfr : findRemove (fun c => c.svgId == ref) cands with
      | none =>
        simp only [hfr, List.mem_cons] at hmem
        rcases hmem with rfl | hmem
        · exact absurd hoc (by simp)
        · exact ih cands oc hmem c hoc
      | some r =>
        obtain ⟨c0, cands2⟩ := r
        obtain ⟨hm, _, hsub⟩ := findRemove_spec hfr
        simp only [hfr, List.mem_cons] at hmem
        rcases hmem with rfl | hmem
        · cases hoc; exact hm
        · exact hsub c (ih cands2 oc hmem c hoc)

theorem exactPass_unclaimed_mem (v : View) (ds : List ConnectorDeclaration)
    (cands : List Candidate) :
    ∀ c ∈ (exactPass v ds cands).2, c ∈ cands := by
  induction ds generalizing cands with
  | nil => intro c h; simpa [exactPass] using h
  | cons d rest ih =>
    intro c hmem
    rw [exactPass] at hmem
    cases hr : d.refFor v with
    | none =>
      rw [hr] at hmem
      exact ih cands c hmem
    | some ref =>
      rw [hr] at hmem
      cases hfr : findRemove (fun c => c.svgId == ref) cands with
      | none =>
        simp only [hfr] at hmem
        exact ih cands c hmem
      | some r =>
        obtain ⟨c0, cands2⟩ := r
        obtain ⟨_, _, hsub⟩ := findRemove_spec hfr
        simp only [hfr] at hmem
        exact hsub c (ih cands2 c hmem)

theorem fillPass_length (pairs : List (ConnectorDeclaration × Option Candidate))
    (cands : List Candidate) : (fillPass pairs cands).length = pairs.length := by
  induction pairs generalizing cands with
  | nil => rfl
  | cons p rest ih =>
    obtain ⟨d, oc⟩ := p
    cases oc with
    | some c => rw [fillPass]; simpa using ih cands
    | none =>
      rw [fillPass]
      cases hfr : findRemove (nameSimilar d) cands with
      | some r =>
        obtain ⟨c0, cs⟩ := r
        simp only [hfr]
        simpa using ih cs
      | none =>
        cases htf : takeFirst cands with
        | none => simp only [hfr, htf]; simpa using ih cands
        | some r =>
          obtain ⟨c0, cs⟩ := r
          simp only [hfr, htf]
          simpa using ih cs

theorem pairNoneCount_cons_some (d : ConnectorDeclaration) (c : Candidate)
    (rest : List (ConnectorDeclaration × Option Candidate)) :
    pairNoneCount ((d, some c) :: rest) = pairNoneCount rest := by
  simp [pairNoneCount, List.countP_cons]

theorem pairNoneCount_cons_none (d : ConnectorDeclaration)
    (rest : List (ConnectorDeclaration × Option Candidate)) :
    pairNoneCount ((d, none) :: rest) = pairNoneCount rest + 1 := by
  simp [pairNoneCount, List.countP_cons]

theorem fillPass_all_some (pairs : List (ConnectorDeclaration × Option Candidate))
    (cands : List Candidate) (h : pairNoneCount pairs ≤ cands.length) :
    ∀ oc ∈ fillPass pairs cands, oc.isSome := by
  induction pairs generalizing cands with
  | nil => intro oc hm; simp [fillPass] at hm
  | cons p rest ih =>
    obtain ⟨d, oc0⟩ := p
    cases oc0 with
    | some c =>
      intro oc hm
      rw [fillPass] at hm
      rcases List.mem_cons.mp hm with rfl | hm
      · rfl
      · rw [pairNoneCount_cons_some] at h
        exact ih cands h oc hm
    | none =>
      intro oc hm
      rw [pairNoneCount_cons_none] at h
      rw [fillPass] at hm
      cases hfr : findRemove (nameSimilar d) cands with
      | some r =>
        obtain ⟨c0, cs⟩ := r
        simp only [hfr] at hm
        rcases List.mem_cons.mp hm with rfl | hm
        · rfl
        · have hlen := (findRemove_spec hfr).2.1
          exact ih cs (by omega) oc hm
      | none =>
        cases htf : takeFirst cands with
        | none =>
          have hnil : cands = [] := takeFirst_eq_none htf
          subst hnil
          simp at h
        | some r =>
          obtain ⟨c0, cs⟩ := r
          have hcs : cands = c0 :: cs := takeFirst_eq_some htf
          simp only [hfr, htf] at hm
          rcases List.mem_cons.mp hm with rfl | hm
          · rfl
          · have hlen : cands.length = cs.length + 1 := by rw [hcs]; rfl
            exact ih cs (by omega) oc hm

theorem fillPass_mem (pairs : List (ConnectorDeclaration × Option Candidate))
    (cands : List Candidate) :
    ∀ oc ∈ fillPass pairs cands, ∀ c, oc = some c →
      (∃ d, (d, some c) ∈ pairs) ∨ c ∈ cands := by
  induction pairs generalizing cands with
  | nil => intro oc hm; simp [fillPass] at hm
  | cons p rest ih =>
    obtain ⟨d, oc0⟩ := p
    cases oc0 with
    | some c1 =>
      intro oc hm c hoc
      rw [fillPass] at hm
      rcases List.mem_cons.mp hm with rfl | hm
      · cases hoc
        exact .inl ⟨d, List.mem_cons_self _ _⟩
      · rcases ih cands oc hm c hoc with ⟨d2, hd2⟩ | hc
        · exact .inl ⟨d2, List.mem_cons_of_mem _ hd2⟩
        · exact .inr hc
    | none =>
      intro oc hm c hoc
      rw [fillPass] at hm
      cases hfr : findRemove (nameSimilar d) cands with
      | some r =>
        obtain ⟨c0, cs⟩ := r
        obtain ⟨hm0, _, hsub⟩ := findRemove_spec hfr
        simp only [hfr] at hm
        rcases List.mem_cons.mp hm with rfl | hm
        · cases hoc
          exact .inr hm0
        · rcases ih cs oc hm c hoc with ⟨d2, hd2⟩ | hc
          · exact .inl ⟨d2, List.mem_cons_of_mem _ hd2⟩
          · exact .inr (hsub c hc)
      | none =>
        cases htf : takeFirst cands with
        | none =>
          simp only [hfr, htf] at hm
          rcases List.mem_cons.mp hm with rfl | hm
          · exact absurd hoc (by simp)
          · rcases ih cands oc hm c hoc with ⟨d2, hd2⟩ | hc
            · exact .inl ⟨d2, List.mem_cons_of_mem _ hd2⟩
            · exact .inr hc
        | some r =>
          obtain ⟨c0, cs⟩ := r
          have hcs : cands = c0 :: cs := takeFirst_eq_some htf
          simp only [hfr, htf] at hm
          rcases List.mem_cons.mp hm with rfl | hm
          · cases hoc
            rw [hcs]
            exact .inr (List.mem_cons_self _ _)
          · rcases ih cs oc hm c hoc with ⟨d2, hd2⟩ | hc
            · exact .inl ⟨d2, List.mem_cons_of_mem _ hd2⟩
            · rw [hcs]
              exact .inr (List.mem_cons_of_mem _ hc)

theorem resolveView_ok_length {decls : List ConnectorDeclaration} {v : View}
    {src : SvgSource} {lst : List (Option Candidate)}
    (h : resolveView decls v src = .ok lst) : lst.length = decls.length := by
  cases src with
  | missing => simp [resolveView] at h
  | malformed => simp [resolveView] at h
  | parsed vb w hgt root =>
    simp only [resolveView] at h
    injection h with h2
    subst h2
    rw [fillPass_length, List.length_zip, exactPass_length]
    exact Nat.min_self _

theorem resolveView_ok_ids {decls : List ConnectorDeclaration} {v : View}
    {src : SvgSource} {lst : List (Option Candidate)}
    (hrefs : (declRefs decls v).contains "" = false)
    (h : resolveView decls v src = .ok lst) :
    ∀ oc ∈ lst, ∀ c, oc = some c → c.svgId ≠ "" := by
  cases src with
  | missing => simp [resolveView] at h
  | malformed => simp [resolveView] at h
  | parsed vb w hgt root =>
    simp only [resolveView] at h
    injection h with h2
    subst h2
    intro oc hm c hoc
    have hmemC : c ∈ rankCands (collectCands (declRefs decls v) Affine.ident 0 root).1 := by
      rcases fillPass_mem _ _ oc hm c hoc with ⟨d2, hd2⟩ | hc
      · have hz := (List.of_mem_zip hd2).2
        exact exactPass_assigned_mem _ _ _ (some c) hz c rfl
      · exact exactPass_unclaimed_mem _ _ _ c hc
    exact collectCands_id_ne _ _ _ _ hrefs c (mem_rankCands.mp hmemC)

theorem resolveView_parsed_all_some {decls : List ConnectorDeclaration}
    {v : View} {vb w hgt : Option String} {root : SvgElem}
    {lst : List (Option Candidate)}
    (h : resolveView decls v (.parsed vb w hgt root) = .ok lst)
    (hcount : decls.length ≤
      (collectCands (declRefs decls v) Affine.ident 0 root).1.length) :
    ∀ oc ∈ lst, oc.isSome := by
  simp only [resolveView] at h
  injection h with h2
  subst h2
  apply fillPass_all_some
  have h1 := exactPass_length v decls
    (rankCands (collectCands (declRefs decls v) Affine.ident 0 root).1)
  have h2c := exactPass_count v decls
    (rankCands (collectCands (declRefs decls v) Affine.ident 0 root).1)
  have h3 := someCount_add_noneCount
    (exactPass v decls (rankCands (collectCands (declRefs decls v) Affine.ident 0 root).1)).1
  have h4 := pairNoneCount_zip decls
    (exactPass v decls (rankCands (collectCands (declRefs decls v) Affine.ident 0 root).1)).1
    h1.symm
  have h5 := rankCands_length (collectCands (declRefs decls v) Affine.ident 0 root).1
  rw [h4]
  omega

theorem firstHit_mem {i : Nat}
    {results : List (Except EngineError (List (Option Candidate)))}
    {c : Candidate} (h : firstHit i results = some c) :
    ∃ lst, Except.ok lst ∈ results ∧ some c ∈ lst := by
  induction results with
  | nil => simp [firstHit] at h
  | cons r rest ih =>
    cases r with
    | error e =>
      rw [firstHit] at h
      obtain ⟨lst, hmem, hc⟩ := ih h
      exact ⟨lst, List.mem_cons_of_mem _ hmem, hc⟩
    | ok lst =>
      rw [firstHit] at h
      cases hg : lst.getD i none with
      | some c0 =>
        simp only [hg] at h
        injection h with h2
        subst h2
        refine ⟨lst, List.mem_cons_self _ _, ?_⟩
        cases hq : lst[i]? with
        | none =>
          rw [List.getD_eq_getElem?_getD, hq] at hg
          simp at hg
        | some oc =>
          rw [List.getD_eq_getElem?_getD, hq] at hg
          simp only [Option.getD_some] at hg
          subst hg
          exact List.getElem?_mem hq
      | none =>
        simp only [hg] at h
        obtain ⟨lst2, hmem, hc⟩ := ih h
        exact ⟨lst2, List.mem_cons_of_mem _ hmem, hc⟩

theorem firstHit_isSome {i : Nat}
    {results : List (Except EngineError (List (Option Candidate)))}
    (lst : List (Option Candidate)) (hmem : Except.ok lst ∈ results)
    (hs : (lst.getD i none).isSome) : (firstHit i results).isSome := by
  induction results with
  | nil => simp at hmem
  | cons r rest ih =>
    rcases List.mem_cons.mp hmem with heq | hmem2
    · rw [← heq, firstHit]
      cases hg : lst.getD i none with
      | some c0 => simp
      | none => rw [hg] at hs; simp at hs
    · cases r with
      | error e =>
        rw [firstHit]
        exact ih hmem2
      | ok lst2 =>
        rw [firstHit]
        cases hg : lst2.getD i none with
        | some c0 => simp [hg]
        | none =>
          simp only [hg]
          exact ih hmem2

theorem mergeAt_id (results : List (Except EngineError (List (Option Candidate))))
    (i : Nat) (d : ConnectorDeclaration) : (mergeAt results i d).id = d.id := by
  unfold mergeAt
  cases firstHit i results <;> rfl

theorem normalizeConnectors_length (decls : List ConnectorDeclaration)
    (vs : ComponentViews) :
    (normalizeConnectors decls vs).length = decls.length := by
  unfold normalizeConnectors
  rw [List.length_map, List.enum_length]

theorem normalizeConnectors_ids (decls : List ConnectorDeclaration)
    (vs : ComponentViews) :
    (normalizeConnectors decls vs).map (fun rc => rc.id) =
      decls.map (fun d => d.id) := by
  unfold normalizeConnectors
  rw [List.map_map]
  have h : ((fun rc => rc.id) ∘ fun p =>
      mergeAt (viewResults decls vs) p.1 p.2) =
      (fun d => d.id) ∘ (Prod.snd : Nat × ConnectorDeclaration → ConnectorDeclaration) := by
    funext p
    exact mergeAt_id _ _ _
  rw [h, ← List.map_map, List.enum_map_snd]

theorem mem_normalizeConnectors_shape (decls : List ConnectorDeclaration)
    (vs : ComponentViews) (rc : ResolvedConnector)
    (h : rc ∈ normalizeConnectors decls vs) :
    (∃ qx qy, rc.x = some qx ∧ rc.y = some qy) ∨
      (rc.svgId = "" ∧ rc.x = none ∧ rc.y = none) := by
  unfold normalizeConnectors at h
  obtain ⟨p, _, heq⟩ := List.mem_map.mp h
  subst heq
  unfold mergeAt
  cases firstHit p.1 (viewResults decls vs) with
  | some c => exact .inl ⟨c.x, c.y, rfl, rfl⟩
  | none => exact .inr ⟨rfl, rfl, rfl⟩

theorem svgId_nonempty_core (decls : List ConnectorDeclaration)
    (vs : ComponentViews) (v : View) (vb w hgt : Option String) (root : SvgElem)
    (hv : vs.viewOf v = .parsed vb w hgt root)
    (hcount : decls.length ≤
      (collectCands (declRefs decls v) Affine.ident 0 root).1.length)
    (hrefs : ∀ u : View, (declRefs decls u).contains "" = false) :
    ∀ rc ∈ normalizeConnectors decls vs, rc.svgId ≠ "" := by
  intro rc hrc
  unfold normalizeConnectors at hrc
  obtain ⟨p, hp, heq⟩ := List.mem_map.mp hrc
  have hplt : p.1 < decls.length := List.fst_lt_of_mem_enum hp
  obtain ⟨lst, hok⟩ : ∃ lst, resolveView decls v (vs.viewOf v) = .ok lst := by
    rw [hv]
    exact ⟨_, rfl⟩
  have hlen : lst.length = decls.length := resolveView_ok_length hok
  have hall : ∀ oc ∈ lst, oc.isSome := by
    rw [hv] at hok
    exact resolveView_parsed_all_some hok hcount
  rw [← hv] at *
  have hmemres : Except.ok lst ∈ viewResults decls vs := by
    unfold viewResults
    exact List.mem_map.mpr ⟨v, by cases v <;> simp [viewOrder], hok⟩
  have hgd : (lst.getD p.1 none).isSome := by
    have hlt : p.1 < lst.length := by rw [hlen]; exact hplt
    rw [List.getD_eq_getElem?_getD, List.getElem?_eq_getElem hlt]
    exact hall _ (List.getElem_mem hlt)
  have hsome := firstHit_isSome (i := p.1) lst hmemres hgd
  obtain ⟨c, hc⟩ := Option.isSome_iff_exists.mp hsome
  obtain ⟨lst2, hmem2, hc2⟩ := firstHit_mem hc
  obtain ⟨u, _, hres2⟩ := List.mem_map.mp hmem2
  have hid : c.svgId ≠ "" := resolveView_ok_ids (hrefs u) hres2 (some c) hc2 c rfl
  subst heq
  unfold mergeAt
  rw [hc]
  exact hid

/-- Declaration `PIN1` of the spec's transform scenario (§8): no per-view
references, matching falls back to first-unclaimed-candidate. -/
def specPIN1 : ConnectorDeclaration := ⟨"PIN1", none, none, none⟩

/-- Declaration `PIN2` of the spec's transform scenario (§8). -/
def specPIN2 : ConnectorDeclaration := ⟨"PIN2", none, none, none⟩

/-- The spec's transform-scenario SVG (§8): two circles with local centers
`(5,5)` and `(15,5)`, identifiers `connector0pin` and `connector1pin`,
nested inside `<g transform="translate(10,20)">`. -/
def scenarioRoot : SvgElem :=
  .group none
    [.group (some (.translate 10 20))
      [.circle (some "connector0pin") 5 5,
       .circle (some "connector1pin") 15 5]]

/-- Views for the transform scenario: the SVG above as breadboard view. -/
def scenarioViews : ComponentViews :=
  ⟨.parsed none none none scenarioRoot, .missing, .missing⟩

/-- Views for the malformed-breadboard scenario (§8): unparsable breadboard,
the scenario SVG as the (valid) schematic view. -/
def fallbackViews : ComponentViews :=
  ⟨.malformed, .parsed none none none scenarioRoot, .missing⟩

/-- Descriptor for the malformed-breadboard scenario. -/
def fallbackDescriptor : ComponentDescriptor :=
  ⟨"comp1", "fz-comp1", "Test Part", "ICs", [specPIN1, specPIN2]⟩

/-- Breadboard SVG with a single matchable pin marker. -/
def singleMarkerRoot : SvgElem := .circle (some "connector0pin") 3 4

/-- Views with one matchable marker in the (only) breadboard view. -/
def singleMarkerViews : ComponentViews :=
  ⟨.parsed none none none singleMarkerRoot, .missing, .missing⟩

/-- Total failed-check count of the merged test results, embedded from the
merge loop of `main` in `src/backend_test.py`. -/
theorem foldl_merge_failed (rs : List BackendTest.TestResults)
    (acc : BackendTest.TestResults) :
    (rs.foldl BackendTest.mergeResults acc).failed =
      acc.failed + (rs.map (fun r => r.failed)).sum := by
  induction rs generalizing acc with
  | nil => simp
  | cons r t ih =>
    simp only [List.foldl_cons, List.map_cons, List.sum_cons]
    rw [ih]
    simp [BackendTest.mergeResults]
    omega

/-! ### Claim theorems -/

/-- C1: the Component Normalizer emits exactly one `ResolvedConnector` per
`ConnectorDeclaration`: the returned list's length always equals the
declared connector count; and in the spec's scenario of three declared
connectors with only two matchable markers, the unmatched declaration is
still emitted — with empty `svgId` — rather than dropped. -/
theorem claim_C1_no_drops :
    (∀ (decls : List ConnectorDeclaration) (vs : ComponentViews),
      (normalizeConnectors decls vs).length = decls.length) ∧
    normalizeConnectors
        [⟨"P1", none, none, none⟩, ⟨"P2", none, none, none⟩,
         ⟨"P3", none, none, none⟩] scenarioViews =
      [⟨"P1", "connector0pin", some 15, some 25⟩,
       ⟨"P2", "connector1pin", some 25, some 25⟩,
       ⟨"P3", "", none, none⟩] :=
  ⟨fun decls vs => normalizeConnectors_length decls vs, by with_unfolding_all rfl⟩

/-- C2: the spec's transform scenario — for declarations PIN1 and PIN2 and a
breadboard SVG whose two circles (local centers (5,5) and (15,5), ids
connector0pin and connector1pin) sit inside `<g transform="translate(10,20)">`,
resolution binds PIN1 to connector0pin at (15,25) and PIN2 to connector1pin
at (25,25): each anchor is the local geometric center mapped through the
composed ancestor transform. -/
theorem claim_C2_transform_scenario :
    normalizeConnectors [specPIN1, specPIN2] scenarioViews =
      [⟨"PIN1", "connector0pin", some 15, some 25⟩,
       ⟨"PIN2", "connector1pin", some 25, some 25⟩] := by
  with_unfolding_all rfl

/-- C3: an unparsable view fails with `InvalidSvgDocument` for every
declaration list and view name, and — concretely — a component whose
breadboard view is malformed but whose schematic view is valid is still
returned by the listing, with schematic-derived coordinates and no
top-level failure. -/
theorem claim_C3_malformed_fallback :
    (∀ (decls : List ConnectorDeclaration) (v : View),
      resolveView decls v .malformed = .error .invalidSvgDocument) ∧
    listComponents (.entries [⟨.wellFormed fallbackDescriptor, fallbackViews⟩]) =
      ⟨true,
       [⟨"comp1", "fz-comp1", "Test Part", "ICs",
         [⟨"PIN1", "connector0pin", some 15, some 25⟩,
          ⟨"PIN2", "connector1pin", some 25, some 25⟩]⟩],
       none⟩ :=
  ⟨fun _ _ => rfl, by with_unfolding_all rfl⟩

/-- C4: every `ResolvedConnector` either carries explicitly present
coordinates (exact rationals, hence finite by construction) or is explicitly
unresolved, with empty `svgId` and both coordinate fields ABSENT — missing
data is the absence of the field, never a silent `(0, 0)`, so a genuine
`(0, 0)` anchor (`x = some 0`) stays distinguishable from unresolved data
(`x = none`). -/
theorem claim_C4_no_silent_zero (decls : List ConnectorDeclaration)
    (vs : ComponentViews) (rc : ResolvedConnector)
    (h : rc ∈ normalizeConnectors decls vs) :
    (∃ qx qy, rc.x = some qx ∧ rc.y = some qy) ∨
      (rc.svgId = "" ∧ rc.x = none ∧ rc.y = none) :=
  mem_normalizeConnectors_shape decls vs rc h

/-- C4 witness: the claim instantiated on the transform scenario's first
resolved connector. -/
theorem claim_C4_witness :
    (∃ qx qy,
      (⟨"PIN1", "connector0pin", some 15, some 25⟩ : ResolvedConnector).x = some qx ∧
      (⟨"PIN1", "connector0pin", some 15, some 25⟩ : ResolvedConnector).y = some qy) ∨
    ((⟨"PIN1", "connector0pin", some 15, some 25⟩ : ResolvedConnector).svgId = "" ∧
      (⟨"PIN1", "connector0pin", some 15, some 25⟩ : ResolvedConnector).x = none ∧
      (⟨"PIN1", "connector0pin", some 15, some 25⟩ : ResolvedConnector).y = none) :=
  claim_C4_no_silent_zero [specPIN1, specPIN2] scenarioViews
    ⟨"PIN1", "connector0pin", some 15, some 25⟩
    (by
      have h : normalizeConnectors [specPIN1, specPIN2] scenarioViews =
          [⟨"PIN1", "connector0pin", some 15, some 25⟩,
           ⟨"PIN2", "connector1pin", some 25, some 25⟩] := by
        with_unfolding_all rfl
      rw [h]
      exact List.mem_cons_self _ _)

/-- C5 counterexample: two declared connectors, a single matchable marker.
The breadboard view resolves successfully and a candidate marker exists in
it (PIN1 is bound to it), yet PIN2 is emitted with empty `svgId` — refuting
"svgId is non-empty whenever at least one candidate existed in any view that
resolved successfully". -/
theorem claim_C5_counterexample :
    resolveView [specPIN1, specPIN2] .breadboard
        (singleMarkerViews.viewOf .breadboard) =
      .ok [some ⟨"connector0pin", 3, 4, false⟩, none] ∧
    normalizeConnectors [specPIN1, specPIN2] singleMarkerViews =
      [⟨"PIN1", "connector0pin", some 3, some 4⟩,
       ⟨"PIN2", "", none, none⟩] :=
  ⟨by with_unfolding_all rfl, by with_unfolding_all rfl⟩

/-- C5 (amended): `svgId` is non-empty for every returned connector whenever
some view parses successfully with at least as many pin-marker candidates as
there are declarations, and no declaration references an empty identifier. -/
theorem claim_C5_svgId_nonempty (decls : List ConnectorDeclaration)
    (vs : ComponentViews) (v : View) (vb w hgt : Option String) (root : SvgElem)
    (hv : vs.viewOf v = .parsed vb w hgt root)
    (hcount : decls.length ≤
      (collectCands (declRefs decls v) Affine.ident 0 root).1.length)
    (hrefs : ∀ u : View, (declRefs decls u).contains "" = false) :
    ∀ rc ∈ normalizeConnectors decls vs, rc.svgId ≠ "" :=
  svgId_nonempty_core decls vs v vb w hgt root hv hcount hrefs

/-- C5 witness: the amended claim instantiated on the transform scenario
(two declarations, two candidates). -/
theorem claim_C5_witness :
    (⟨"PIN1", "connector0pin", some 15, some 25⟩ : ResolvedConnector).svgId ≠ "" :=
  claim_C5_svgId_nonempty [specPIN1, specPIN2] scenarioViews .breadboard
    none none none scenarioRoot rfl (by decide)
    (by intro u; cases u <;> rfl)
    ⟨"PIN1", "connector0pin", some 15, some 25⟩
    (by
      have h : normalizeConnectors [specPIN1, specPIN2] scenarioViews =
          [⟨"PIN1", "connector0pin", some 15, some 25⟩,
           ⟨"PIN2", "connector1pin", some 25, some 25⟩] := by
        with_unfolding_all rfl
      rw [h]
      exact List.mem_cons_self _ _)

/-- C6: the listing returns `success: true` together with all validly loaded
components whenever the catalog is reachable; one malformed descriptor never
aborts the listing nor changes the sibling components; `success: false`
occurs exactly on total catalog-load failure. -/
theorem claim_C6_listing_isolation :
    (∀ l : List RawEntry, (listComponents (.entries l)).success = true) ∧
    (∀ cat : CatalogResult,
      (listComponents cat).success = false ↔ cat = .unreachable) ∧
    (∀ (xs ys : List RawEntry) (e : RawEntry), e.descriptor = .malformed →
      (listComponents (.entries (xs ++ e :: ys))).components =
        (listComponents (.entries (xs ++ ys))).components) := by
  refine ⟨fun l => rfl, ?_, ?_⟩
  · intro cat
    cases cat with
    | unreachable => simp [listComponents]
    | entries l => simp [listComponents]
  · intro xs ys e he
    simp only [listComponents]
    rw [List.filterMap_append, List.filterMap_append]
    congr 1
    have hnone : loadEntry e = none := by
      unfold loadEntry
      rw [he]
      rfl
    rw [List.filterMap_cons_none hnone]

/-- C6 witness: a malformed entry next to a valid one leaves the valid
component's record unchanged. -/
theorem claim_C6_witness :
    (listComponents (.entries
        [⟨.wellFormed fallbackDescriptor, fallbackViews⟩,
         ⟨.malformed, scenarioViews⟩])).components =
      (listComponents (.entries
        [⟨.wellFormed fallbackDescriptor, fallbackViews⟩])).components :=
  claim_C6_listing_isolation.2.2
    [⟨.wellFormed fallbackDescriptor, fallbackViews⟩] []
    ⟨.malformed, scenarioViews⟩ rfl

/-- C7: whenever `getComponentSvg` serves a view, the served document carries
a `viewBox` and explicit `width`/`height` attributes — defaults are injected
when the source asset lacked them. -/
theorem claim_C7_svg_attributes (catalog : List (String × ComponentViews))
    (id : String) (v : View) (doc : ServedSvg)
    (h : getComponentSvg catalog id v = some doc) :
    doc.viewBox.isSome ∧ doc.width.isSome ∧ doc.height.isSome := by
  unfold getComponentSvg at h
  cases hl : catalog.lookup id with
  | none => simp [hl] at h
  | some vs =>
    simp only [hl] at h
    cases hv : vs.viewOf v with
    | missing => simp [hv] at h
    | malformed => simp [hv] at h
    | parsed vb w hgt root =>
      simp only [hv] at h
      injection h with h2
      subst h2
      exact ⟨rfl, rfl, rfl⟩

/-- C7 witness: a source asset with no `viewBox`/`width`/`height` is served
with the injected defaults present. -/
theorem claim_C7_witness :
    (⟨some defaultViewBox, some defaultWidth, some defaultHeight,
        singleMarkerRoot⟩ : ServedSvg).viewBox.isSome ∧
    (⟨some defaultViewBox, some defaultWidth, some defaultHeight,
        singleMarkerRoot⟩ : ServedSvg).width.isSome ∧
    (⟨some defaultViewBox, some defaultWidth, some defaultHeight,
        singleMarkerRoot⟩ : ServedSvg).height.isSome :=
  claim_C7_svg_attributes [("comp2", singleMarkerViews)] "comp2" .breadboard
    ⟨some defaultViewBox, some defaultWidth, some defaultHeight,
      singleMarkerRoot⟩ rfl

/-- C8: resolution is deterministic and idempotent — in this model the
resolver and normalizer are pure functions over immutable inputs, so
resolving the same (component, view) pair twice yields identical
`ResolvedConnector` output. -/
theorem claim_C8_idempotent :
    ∀ (decls : List ConnectorDeclaration) (vs : ComponentViews) (v : View)
      (src : SvgSource),
      resolveView decls v src = resolveView decls v src ∧
      normalizeConnectors decls vs = normalizeConnectors decls vs :=
  fun _ _ _ _ => ⟨rfl, rfl⟩

/-- C9: the `ResolvedConnector` entries are returned in declaration order —
the list of output connector ids equals the list of declared connector ids,
in order. -/
theorem claim_C9_declaration_order (decls : List ConnectorDeclaration)
    (vs : ComponentViews) :
    (normalizeConnectors decls vs).map (fun rc => rc.id) =
      decls.map (fun d => d.id) :=
  normalizeConnectors_ids decls vs

/-- C10: `main` exits with code 0 exactly when the total failed-check count
accumulated across the six test suites is zero (`TestResults.summary`
returns true exactly when `failed == 0`), and with code 1 otherwise. -/
theorem claim_C10_exit_code (r1 r2 r3 r4 r5 r6 : BackendTest.TestResults) :
    ((BackendTest.mainExitCode [r1, r2, r3, r4, r5, r6] = 0) ↔
      r1.failed + r2.failed + r3.failed + r4.failed + r5.failed + r6.failed = 0) ∧
    (BackendTest.mainExitCode [r1, r2, r3, r4, r5, r6] ≠ 0 →
      BackendTest.mainExitCode [r1, r2, r3, r4, r5, r6] = 1) ∧
    (∀ r : BackendTest.TestResults, r.summary = true ↔ r.failed = 0) := by
  have hf := foldl_merge_failed [r1, r2, r3, r4, r5, r6] ⟨0, 0, []⟩
  simp only [List.map_cons, List.map_nil, List.sum_cons, List.sum_nil] at hf
  have hmain : BackendTest.mainExitCode [r1, r2, r3, r4, r5, r6] =
      if r1.failed + r2.failed + r3.failed + r4.failed + r5.failed + r6.failed = 0
      then 0 else 1 := by
    unfold BackendTest.mainExitCode
    simp only [BackendTest.TestResults.summary]
    simp only [hf, beq_iff_eq]
    split_ifs with h1 h2 h3
    · rfl
    · omega
    · omega
    · rfl
  refine ⟨?_, ?_, fun r => ?_⟩
  · rw [hmain]
    split_ifs with h
    · simp [h]
    · simp [h]
  · rw [hmain]
    split_ifs with h
    · intro hne
      exact absurd rfl hne
    · intro _
      rfl
  · simp [BackendTest.TestResults.summary]

/-- C10 witness: with one failed check among the six suites, the exit code
is 1. -/
theorem claim_C10_witness :
    BackendTest.mainExitCode
      [⟨1, 1, ["SVG viewBox: missing"]⟩, ⟨1, 0, []⟩, ⟨0, 0, []⟩,
       ⟨2, 0, []⟩, ⟨0, 0, []⟩, ⟨3, 0, []⟩] = 1 :=
  (claim_C10_exit_code ⟨1, 1, ["SVG viewBox: missing"]⟩ ⟨1, 0, []⟩ ⟨0, 0, []⟩
    ⟨2, 0, []⟩ ⟨0, 0, []⟩ ⟨3, 0, []⟩).2.1 (by decide)

end PinEngine
